import Mathlib

/-!
Verification of the hybrid recipe-recommendation engine
(`recommendation_models.py`, `data/data_preprocessor.py`, `src/train_model.py`).

The Python code is shallowly embedded: dataframes become lists of records,
Python dicts become association lists (`List.lookup` for the id/index codec
dicts, which have unique keys; `dictGet` for dict comprehensions built from
pair lists, where the last write wins), numpy arrays become `List`s, and
floats are idealised as elements of a `LinearOrderedField` (instantiated at
`ℚ` for concrete witnesses and at `ℝ` where cosine similarity needs square
roots).  A Python call that can raise an uncaught exception is embedded as
an `Option`-valued function returning `none` on the exception path.
Python's `list.sort(key=..., reverse=True)` is a stable descending sort by
the key; it is embedded as Mathlib's (stable) `List.insertionSort` with the
relation `b.2 ≤ a.2`, which is extensionally the same function.
-/

/-- Python dict lookup with default (`d.get(k, default)`) for a dict built
by a comprehension over a list of pairs: later entries overwrite earlier
ones (last write wins). -/
def dictGet {α : Type} (l : List (Nat × α)) (k : Nat) (d : α) : α :=
  match l with
  | [] => d
  | p :: rest => dictGet rest k (if p.1 = k then p.2 else d)

/-- The value of `dictGet` is the default or the second component of some
entry of the list. -/
theorem dictGet_eq_default_or_mem {α : Type} (l : List (Nat × α)) (k : Nat) (d : α) :
    dictGet l k d = d ∨ ∃ p ∈ l, p.1 = k ∧ dictGet l k d = p.2 := by
  induction l generalizing d with
  | nil => exact Or.inl rfl
  | cons p rest ih =>
    rcases ih (if p.1 = k then p.2 else d) with h | ⟨q, hq, hk, hv⟩
    · by_cases hpk : p.1 = k
      · exact Or.inr ⟨p, List.mem_cons_self .., hpk, by simpa [dictGet, hpk] using h⟩
      · exact Or.inl (by simpa [dictGet, hpk] using h)
    · exact Or.inr ⟨q, List.mem_cons_of_mem _ hq, hk, hv⟩

/-- Dot product of two vectors embedded as lists (`np.dot`). -/
def dot {α : Type} [LinearOrderedField α] (u v : List α) : α :=
  (List.zipWith (· * ·) u v).sum

/-- Clamping to an interval: `np.clip(x, lo, hi)`. -/
def np_clip {α : Type} [LinearOrderedField α] (x lo hi : α) : α :=
  min hi (max lo x)

/-- Python's `list.sort(key=lambda x: x[1], reverse=True)`: a stable sort
placing higher scores first; ties keep their original relative order. -/
def sortByScoreDesc {α : Type} [LinearOrderedField α] (l : List (Nat × α)) : List (Nat × α) :=
  l.insertionSort (fun a b => b.2 ≤ a.2)

/-- The SVD-based collaborative-filtering model state after `fit`: the two
factor matrices, the four codec dicts and the global mean
(`CollaborativeFilteringModel` in `recommendation_models.py`).  The factor
matrices are whatever the library SVD produced; nothing about their values
is assumed. -/
structure CollaborativeFilteringModel (α : Type) where
  n_factors : Nat
  user_factors : List (List α)
  item_factors : List (List α)
  user_idx_to_id : List (Nat × Nat)
  item_idx_to_id : List (Nat × Nat)
  user_id_to_idx : List (Nat × Nat)
  item_id_to_idx : List (Nat × Nat)
  global_mean : α

/-- `CollaborativeFilteringModel.predict`: decode both ids, return
`global_mean + dot(user_vec, item_vec)` clipped to `[1, 5]`; a `KeyError`
(unknown id) or an `IndexError` (decoded index out of range of a factor
array) is caught and the global mean is returned. -/
def CollaborativeFilteringModel.predict {α : Type} [LinearOrderedField α]
    (m : CollaborativeFilteringModel α) (user_id item_id : Nat) : α :=
  match m.user_id_to_idx.lookup user_id, m.item_id_to_idx.lookup item_id with
  | some user_idx, some item_idx =>
    match m.user_factors[user_idx]?, m.item_factors[item_idx]? with
    | some uvec, some ivec => np_clip (m.global_mean + dot uvec ivec) 1 5
    | _, _ => m.global_mean
  | _, _ => m.global_mean

/-- C3: for a (user, item) pair whose ids are both known to the fitted
collaborative model and whose decoded indices are in range of the factor
arrays, `predict` returns `global_mean + dot(user_vec, item_vec)` clipped
to `[1, 5]`; in particular the returned value lies in `[1, 5]`. -/
theorem predict_known_pair_clipped {α : Type} [LinearOrderedField α]
    (m : CollaborativeFilteringModel α) (user_id item_id user_idx item_idx : Nat)
    (uvec ivec : List α)
    (hu : m.user_id_to_idx.lookup user_id = some user_idx)
    (hi : m.item_id_to_idx.lookup item_id = some item_idx)
    (hfu : m.user_factors[user_idx]? = some uvec)
    (hfi : m.item_factors[item_idx]? = some ivec) :
    m.predict user_id item_id = np_clip (m.global_mean + dot uvec ivec) 1 5 ∧
      1 ≤ m.predict user_id item_id ∧ m.predict user_id item_id ≤ 5 := by
  have hp : m.predict user_id item_id = np_clip (m.global_mean + dot uvec ivec) 1 5 := by
    simp only [CollaborativeFilteringModel.predict, hu, hi, hfu, hfi]
  refine ⟨hp, ?_, ?_⟩
  · rw [hp]
    exact le_min (by norm_num) (le_max_of_le_left le_rfl)
  · rw [hp]
    exact min_le_left _ _

/-- Witness model for C3: one user, one item, global mean `3`. -/
def cfWitness : CollaborativeFilteringModel ℚ where
  n_factors := 1
  user_factors := [[2]]
  item_factors := [[3]]
  user_idx_to_id := [(0, 11)]
  item_idx_to_id := [(0, 22)]
  user_id_to_idx := [(11, 0)]
  item_id_to_idx := [(22, 0)]
  global_mean := 3

/-- Witness for C3 at a concrete model: the known pair (11, 22) decodes in
range and its prediction is the clipped biased dot product, inside `[1, 5]`. -/
theorem predict_known_pair_clipped_witness :
    cfWitness.predict 11 22 = np_clip (cfWitness.global_mean + dot [(2 : ℚ)] [3]) 1 5 ∧
      1 ≤ cfWitness.predict 11 22 ∧ cfWitness.predict 11 22 ≤ 5 :=
  predict_known_pair_clipped cfWitness 11 22 0 0 [2] [3]
    (by decide) (by decide) (by decide) (by decide)

/-- Counterexample model for C7: user id 1 is in the codec with decoded
index 3, but `user_factors` has a single row, so the decoded index is out
of range (a stale snapshot queried against a grown table). -/
def cfStale : CollaborativeFilteringModel ℚ where
  n_factors := 1
  user_factors := [[1]]
  item_factors := [[1]]
  user_idx_to_id := [(3, 1)]
  item_idx_to_id := [(0, 2)]
  user_id_to_idx := [(1, 3)]
  item_id_to_idx := [(2, 0)]
  global_mean := 4

/-- C7 counterexample: both ids are known to the codec and the decoded user
index 3 is out of range of the single-row factor array, yet `predict`
returns the global-mean fallback value instead of rejecting the query: the
`IndexError` is caught by the same handler as the cold-start `KeyError`. -/
theorem predict_stale_index_returns_fallback :
    cfStale.user_id_to_idx.lookup 1 = some 3 ∧
      cfStale.item_id_to_idx.lookup 2 = some 0 ∧
      cfStale.user_factors[3]? = none ∧
      cfStale.predict 1 2 = cfStale.global_mean := by
  refine ⟨by decide, by decide, by decide, ?_⟩
  simp [CollaborativeFilteringModel.predict, cfStale]

/-- C7 amended: when both ids are known but a decoded index is out of range
of the corresponding factor array, `predict` silently returns the global
mean (the `IndexError` falls into the same catch-and-default branch as the
cold-start `KeyError`); it does not reject the query. -/
theorem predict_stale_index_amended {α : Type} [LinearOrderedField α]
    (m : CollaborativeFilteringModel α) (user_id item_id user_idx item_idx : Nat)
    (hu : m.user_id_to_idx.lookup user_id = some user_idx)
    (hi : m.item_id_to_idx.lookup item_id = some item_idx)
    (hout : m.user_factors[user_idx]? = none ∨ m.item_factors[item_idx]? = none) :
    m.predict user_id item_id = m.global_mean := by
  simp only [CollaborativeFilteringModel.predict, hu, hi]
  rcases hout with h | h
  · rw [h]
  · rw [h]
    rcases m.user_factors[user_idx]? with _ | uvec <;> rfl

/-- Witness for the amended C7 at the concrete stale snapshot. -/
theorem predict_stale_index_amended_witness : cfStale.predict 1 2 = cfStale.global_mean :=
  predict_stale_index_amended cfStale 1 2 3 0 (by decide) (by decide) (Or.inl (by decide))

/-- Inserting into a list keeps a pairwise invariant `P`, provided `P`
holds from the inserted element to every list element and holds backwards
whenever the insertion order puts a list element first. -/
theorem pairwise_orderedInsert_of_forall {γ : Type} (r : γ → γ → Prop) [DecidableRel r]
    (P : γ → γ → Prop) (x : γ) (l : List γ)
    (hcompat : ∀ y, ¬r x y → P y x)
    (hx : ∀ y ∈ l, P x y) (hl : l.Pairwise P) : (l.orderedInsert r x).Pairwise P := by
  induction l with
  | nil => simp
  | cons y ys ih =>
    rcases List.pairwise_cons.mp hl with ⟨hy, hys⟩
    by_cases hr : r x y
    · simp only [List.orderedInsert, if_pos hr]
      exact List.pairwise_cons.mpr ⟨hx, List.pairwise_cons.mpr ⟨hy, hys⟩⟩
    · simp only [List.orderedInsert, if_neg hr]
      refine List.pairwise_cons.mpr ⟨?_, ?_⟩
      · intro z hz
        rcases (List.mem_orderedInsert r).mp hz with hz | hz
        · exact hz ▸ hcompat y hr
        · exact hy z hz
      · exact ih (fun z hz => hx z (List.mem_cons_of_mem _ hz)) hys

/-- Stability of insertion sort: a pairwise invariant `P` that holds
backwards across every strict inversion of `r` survives sorting by `r`. -/
theorem pairwise_insertionSort_of_pairwise {γ : Type} (r : γ → γ → Prop) [DecidableRel r]
    (P : γ → γ → Prop) (hcompat : ∀ a b, ¬r a b → P b a) (l : List γ)
    (hl : l.Pairwise P) : (l.insertionSort r).Pairwise P := by
  induction l with
  | nil => exact List.Pairwise.nil
  | cons x xs ih =>
    rcases List.pairwise_cons.mp hl with ⟨hx, hxs⟩
    simp only [List.insertionSort]
    refine pairwise_orderedInsert_of_forall r P x _ (fun y => hcompat x y) ?_ (ih hxs)
    intro y hy
    exact hx y ((List.mem_insertionSort r).mp hy)

instance {α : Type} [LinearOrder α] : IsTotal (Nat × α) (fun a b => b.2 ≤ a.2) :=
  ⟨fun a b => le_total b.2 a.2⟩

instance {α : Type} [LinearOrder α] : IsTrans (Nat × α) (fun a b => b.2 ≤ a.2) :=
  ⟨fun _ _ _ h1 h2 => le_trans h2 h1⟩

/-- Output of the descending stable sort is non-increasing in the score. -/
theorem sortByScoreDesc_sorted {α : Type} [LinearOrderedField α] (l : List (Nat × α)) :
    (sortByScoreDesc l).Pairwise (fun a b => b.2 ≤ a.2) :=
  List.sorted_insertionSort _ l

/-- The descending stable sort permutes its input. -/
theorem sortByScoreDesc_perm {α : Type} [LinearOrderedField α] (l : List (Nat × α)) :
    (sortByScoreDesc l).Perm l :=
  List.perm_insertionSort _ l

/-- Stability of the descending sort: any pairwise relation that is only
required between equal scores survives the sort, because equal-score
entries keep their input order. -/
theorem sortByScoreDesc_stable {α : Type} [LinearOrderedField α]
    {T : (Nat × α) → (Nat × α) → Prop} {l : List (Nat × α)}
    (hl : l.Pairwise fun a b => a.2 = b.2 → T a b) :
    (sortByScoreDesc l).Pairwise (fun a b => a.2 = b.2 → T a b) := by
  refine pairwise_insertionSort_of_pairwise _ _ ?_ l hl
  intro a b hr heq
  exact absurd (le_of_eq heq) hr

/-- The recommendation-candidate loop of
`CollaborativeFilteringModel.recommend_items` (lines 75-80): walk the
enumerated predictions in index order, decode each index through the
`item_idx_to_id` dict (an unknown index raises an uncaught `KeyError`,
hence `none`), and skip items in the exclusion set. -/
def buildRecs {α : Type} (item_idx_to_id : List (Nat × Nat)) (exclude_items : List Nat) :
    List (Nat × α) → Option (List (Nat × α))
  | [] => some []
  | (idx, score) :: rest =>
    match item_idx_to_id.lookup idx with
    | none => none
    | some item_id =>
      match buildRecs item_idx_to_id exclude_items rest with
      | none => none
      | some recs => some (if item_id ∈ exclude_items then recs else (item_id, score) :: recs)

/-- Every candidate produced by `buildRecs` decodes some enumerated entry
and is not excluded. -/
theorem buildRecs_mem {α : Type} (mp : List (Nat × Nat)) (ex : List Nat) :
    ∀ (es : List (Nat × α)) (recs : List (Nat × α)),
      buildRecs mp ex es = some recs → ∀ p ∈ recs,
        ∃ e ∈ es, mp.lookup e.1 = some p.1 ∧ p.2 = e.2 ∧ p.1 ∉ ex := by
  intro es
  induction es with
  | nil =>
    intro recs h p hp
    simp only [buildRecs, Option.some.injEq] at h
    subst h
    simp at hp
  | cons e rest ih =>
    intro recs h p hp
    rcases e with ⟨idx, score⟩
    simp only [buildRecs] at h
    rcases hid : mp.lookup idx with _ | item_id
    · rw [hid] at h
      exact absurd h (by simp)
    rw [hid] at h
    rcases hrest : buildRecs mp ex rest with _ | recs'
    · rw [hrest] at h
      exact absurd h (by simp)
    rw [hrest] at h
    simp only [Option.some.injEq] at h
    subst h
    by_cases hmem : item_id ∈ ex
    · rw [if_pos hmem] at hp
      rcases ih recs' hrest p hp with ⟨e, he, h1, h2, h3⟩
      exact ⟨e, List.mem_cons_of_mem _ he, h1, h2, h3⟩
    · rw [if_neg hmem] at hp
      rcases List.mem_cons.mp hp with hp | hp
      · subst hp
        exact ⟨(idx, score), List.mem_cons_self .., hid, rfl, hmem⟩
      · rcases ih recs' hrest p hp with ⟨e, he, h1, h2, h3⟩
        exact ⟨e, List.mem_cons_of_mem _ he, h1, h2, h3⟩

/-- `buildRecs` transports a pairwise relation along the decode step. -/
theorem buildRecs_pairwise {α : Type} (mp : List (Nat × Nat)) (ex : List Nat)
    (R : (Nat × α) → (Nat × α) → Prop) :
    ∀ (es : List (Nat × α)),
      es.Pairwise (fun e f => ∀ i j, mp.lookup e.1 = some i → mp.lookup f.1 = some j →
        R (i, e.2) (j, f.2)) →
      ∀ recs, buildRecs mp ex es = some recs → recs.Pairwise R := by
  intro es
  induction es with
  | nil =>
    intro _ recs h
    simp only [buildRecs, Option.some.injEq] at h
    subst h
    exact List.Pairwise.nil
  | cons e rest ih =>
    intro hes recs h
    rcases e with ⟨idx, score⟩
    rcases List.pairwise_cons.mp hes with ⟨hhead, htail⟩
    simp only [buildRecs] at h
    rcases hid : mp.lookup idx with _ | item_id
    · rw [hid] at h
      exact absurd h (by simp)
    rw [hid] at h
    rcases hrest : buildRecs mp ex rest with _ | recs'
    · rw [hrest] at h
      exact absurd h (by simp)
    rw [hrest] at h
    simp only [Option.some.injEq] at h
    subst h
    have hrecs' := ih htail recs' hrest
    by_cases hmem : item_id ∈ ex
    · rw [if_pos hmem]
      exact hrecs'
    · rw [if_neg hmem]
      refine List.pairwise_cons.mpr ⟨?_, hrecs'⟩
      intro q hq
      rcases buildRecs_mem mp ex rest recs' hrest q hq with ⟨f, hf, hlook, hsnd, _⟩
      have := hhead f hf item_id q.1 hid hlook
      rwa [← hsnd, Prod.mk.eta] at this

/-- Entries of an enumeration from `n` carry indices at least `n`. -/
theorem le_fst_of_mem_enumFrom {γ : Type} :
    ∀ (l : List γ) (n : Nat) (p : Nat × γ), p ∈ l.enumFrom n → n ≤ p.1 := by
  intro l
  induction l with
  | nil => intro n p hp; simp [List.enumFrom] at hp
  | cons x xs ih =>
    intro n p hp
    rcases List.mem_cons.mp hp with hp | hp
    · subst hp; exact le_rfl
    · exact le_trans (Nat.le_succ n) (ih (n + 1) p hp)

/-- An enumeration is strictly increasing in its indices. -/
theorem pairwise_fst_lt_enumFrom {γ : Type} :
    ∀ (l : List γ) (n : Nat), (l.enumFrom n).Pairwise fun a b => a.1 < b.1 := by
  intro l
  induction l with
  | nil => intro n; exact List.Pairwise.nil
  | cons x xs ih =>
    intro n
    refine List.pairwise_cons.mpr ⟨?_, ih (n + 1)⟩
    intro b hb
    exact lt_of_lt_of_le (Nat.lt_succ_self n) (le_fst_of_mem_enumFrom xs (n + 1) b hb)

/-- A successful dict lookup locates an entry of the association list. -/
theorem lookup_mem {β : Type} {a : Nat} {b : β} :
    ∀ {l : List (Nat × β)}, List.lookup a l = some b → (a, b) ∈ l := by
  intro l
  induction l with
  | nil => intro h; simp [List.lookup] at h
  | cons p rest ih =>
    intro h
    rcases p with ⟨k, v⟩
    by_cases hk : a == k
    · simp only [List.lookup, hk, Option.some.injEq] at h
      subst h
      have : a = k := by simpa using hk
      subst this
      exact List.mem_cons_self ..
    · simp only [List.lookup, hk] at h
      exact List.mem_cons_of_mem _ (ih h)

/-- `CollaborativeFilteringModel.recommend_items`: an unknown user id is a
cold start and returns the empty list; otherwise every item's unclamped
score `global_mean + dot(item_vec, user_vec)` is computed, excluded items
are skipped, and the list is stably sorted by descending score and
truncated to the requested count.  An out-of-range user index
(`IndexError` on the factor array) or an index missing from the
`item_idx_to_id` dict (`KeyError`) is not caught here and aborts the call
(`none`). -/
def CollaborativeFilteringModel.recommend_items {α : Type} [LinearOrderedField α]
    (m : CollaborativeFilteringModel α) (user_id n_recommendations : Nat)
    (exclude_items : List Nat) : Option (List (Nat × α)) :=
  match m.user_id_to_idx.lookup user_id with
  | none => some []
  | some user_idx =>
    match m.user_factors[user_idx]? with
    | none => none
    | some user_vector =>
      let predictions := m.item_factors.map (fun ivec => m.global_mean + dot ivec user_vector)
      match buildRecs m.item_idx_to_id exclude_items predictions.enum with
      | none => none
      | some recommendations =>
        some ((sortByScoreDesc recommendations).take n_recommendations)

/-- The dense matrix index of a recommended item, recovered through the
`item_id_to_idx` codec dict. -/
def itemIndexIn {α : Type} (m : CollaborativeFilteringModel α) (p : Nat × α) : Nat :=
  (m.item_id_to_idx.lookup p.1).getD 0

/-- C4: whenever `recommend_items` returns a list, it has at most
`n_recommendations` entries, contains no excluded item, and is sorted
non-increasing by score with equal scores ordered by increasing item
(matrix) index; for a user id unknown to the model the result is the empty
list.  The codec hypothesis `hinv` says `item_id_to_idx` inverts
`item_idx_to_id`, which holds for the mutually inverse dicts the
preprocessor builds. -/
theorem recommend_items_spec {α : Type} [LinearOrderedField α]
    (m : CollaborativeFilteringModel α) (user_id n_recommendations : Nat)
    (exclude_items : List Nat) (l : List (Nat × α))
    (hinv : ∀ p ∈ m.item_idx_to_id, m.item_id_to_idx.lookup p.2 = some p.1)
    (hl : m.recommend_items user_id n_recommendations exclude_items = some l) :
    l.length ≤ n_recommendations ∧
      (∀ p ∈ l, p.1 ∉ exclude_items) ∧
      l.Pairwise (fun a b => b.2 ≤ a.2 ∧ (a.2 = b.2 → itemIndexIn m a < itemIndexIn m b)) ∧
      (m.user_id_to_idx.lookup user_id = none → l = []) := by
  rcases hu : m.user_id_to_idx.lookup user_id with _ | user_idx
  · simp only [CollaborativeFilteringModel.recommend_items, hu, Option.some.injEq] at hl
    subst hl
    exact ⟨Nat.zero_le _, by simp, List.Pairwise.nil, fun _ => rfl⟩
  · simp only [CollaborativeFilteringModel.recommend_items, hu] at hl
    rcases hf : m.user_factors[user_idx]? with _ | user_vector
    · simp [hf] at hl
    simp only [hf] at hl
    rcases hb : buildRecs m.item_idx_to_id exclude_items
        ((m.item_factors.map (fun ivec => m.global_mean + dot ivec user_vector)).enum)
      with _ | recs
    · simp [hb] at hl
    simp only [hb, Option.some.injEq] at hl
    subst hl
    refine ⟨List.length_take_le _ _, ?_, ?_, ?_⟩
    · intro p hp
      have hp2 : p ∈ recs :=
        (sortByScoreDesc_perm recs).mem_iff.mp (List.mem_of_mem_take hp)
      rcases buildRecs_mem _ _ _ _ hb p hp2 with ⟨_, _, _, _, hnotex⟩
      exact hnotex
    · have hsorted := sortByScoreDesc_sorted recs
      have hidx : recs.Pairwise fun a b => itemIndexIn m a < itemIndexIn m b := by
        refine buildRecs_pairwise _ _ _ _ ?_ recs hb
        refine List.Pairwise.imp ?_
          (pairwise_fst_lt_enumFrom
            (m.item_factors.map (fun ivec => m.global_mean + dot ivec user_vector)) 0)
        intro e f hef i j hi hj
        have hi' := hinv (e.1, i) (lookup_mem hi)
        have hj' := hinv (f.1, j) (lookup_mem hj)
        simp only [itemIndexIn, hi', hj', Option.getD_some]
        exact hef
      have hstable :=
        sortByScoreDesc_stable (T := fun a b => itemIndexIn m a < itemIndexIn m b)
          (hidx.imp (S := fun a b => a.2 = b.2 → itemIndexIn m a < itemIndexIn m b)
            (fun h _ => h))
      have hpair := (hsorted.and hstable).sublist
        (List.take_sublist n_recommendations (sortByScoreDesc recs))
      exact hpair.imp (fun h => ⟨h.1, h.2⟩)
    · intro hnone
      exact absurd hnone (by simp)

/-- Witness model for C4: one known user with three items, one excluded. -/
def cfRanker : CollaborativeFilteringModel ℚ where
  n_factors := 1
  user_factors := [[1]]
  item_factors := [[2], [1], [3]]
  user_idx_to_id := [(0, 1)]
  item_idx_to_id := [(0, 100), (1, 200), (2, 300)]
  user_id_to_idx := [(1, 0)]
  item_id_to_idx := [(100, 0), (200, 1), (300, 2)]
  global_mean := 0

/-- Witness for C4 at a concrete model: requesting two items while
excluding item 200 yields the two remaining items in descending-score
order, none excluded, within the requested count. -/
theorem recommend_items_spec_witness :
    ([((300 : Nat), (3 : ℚ)), (100, 2)].length ≤ 2 ∧
      (∀ p ∈ [((300 : Nat), (3 : ℚ)), (100, 2)], p.1 ∉ [(200 : Nat)]) ∧
      List.Pairwise
        (fun a b => b.2 ≤ a.2 ∧ (a.2 = b.2 → itemIndexIn cfRanker a < itemIndexIn cfRanker b))
        [((300 : Nat), (3 : ℚ)), (100, 2)] ∧
      (cfRanker.user_id_to_idx.lookup 1 = none → [((300 : Nat), (3 : ℚ)), (100, 2)] = [])) :=
  recommend_items_spec cfRanker 1 2 [200] [(300, 3), (100, 2)]
    (by decide)
    (by norm_num +decide [cfRanker, CollaborativeFilteringModel.recommend_items, buildRecs,
      sortByScoreDesc, dot, List.insertionSort, List.orderedInsert, List.lookup,
      List.enum, List.enumFrom])

/-- The content-based model state after `fit` (`ContentBasedModel` in
`recommendation_models.py`): the item ids in dataframe order and the
combined TF-IDF-plus-normalized-numerics feature matrix, one row per item.
The TF-IDF vectorizers themselves only matter through the rows they
produced, so the rows are the embedded state. -/
structure ContentBasedModel (α : Type) where
  recipe_ids : List Nat
  feature_matrix : List (List α)

/-- One row of the interactions dataframe: (user id, recipe id, rating). -/
structure Interaction (α : Type) where
  user_id : Nat
  recipe_id : Nat
  rating : α

/-- The `id_mappings` dict stored alongside the models: the four codec
dicts produced by the preprocessor. -/
structure IdMappings where
  user_to_idx : List (Nat × Nat)
  recipe_to_idx : List (Nat × Nat)
  idx_to_user : List (Nat × Nat)
  idx_to_recipe : List (Nat × Nat)

/-- The hybrid recommender state (`HybridRecommender`): both sub-models,
the fusion weights, and the fitted dataframes.  `interactions_df` is
`none` on a freshly constructed (or freshly loaded) instance, where the
attribute is still `None`. -/
structure HybridRecommender (α : Type) where
  cf_model : CollaborativeFilteringModel α
  cb_model : ContentBasedModel α
  cf_weight : α
  cb_weight : α
  interactions_df : Option (List (Interaction α))
  id_mappings : Option IdMappings

/-- The default fusion weights of `HybridRecommender.__init__`:
`cf_weight=0.6, cb_weight=0.4`. -/
def defaultWeights : ℚ × ℚ := (0.6, 0.4)

/-- The `model_config.pkl` payload written by `save_model`. -/
structure ModelConfig (α : Type) where
  cf_weight : α
  cb_weight : α
  id_mappings : Option IdMappings

/-- The `cf_model.pkl` payload written by `save_model`. -/
structure CfModelData (α : Type) where
  user_factors : List (List α)
  item_factors : List (List α)
  user_idx_to_id : List (Nat × Nat)
  item_idx_to_id : List (Nat × Nat)
  user_id_to_idx : List (Nat × Nat)
  item_id_to_idx : List (Nat × Nat)
  global_mean : α
  n_factors : Nat

/-- The `cb_model.pkl` payload written by `save_model`. -/
structure CbModelData (α : Type) where
  recipe_ids : List Nat
  feature_matrix : List (List α)

/-- The on-disk snapshot: the three pickle payloads (the TF-IDF
vectorizers saved separately carry no state used by `predict` or
`recommend_items`). -/
structure SavedModel (α : Type) where
  config : ModelConfig α
  cf_data : CfModelData α
  cb_data : CbModelData α

/-- `HybridRecommender.save_model`: extract the pickled payloads from the
live model. -/
def HybridRecommender.save_model {α : Type} (h : HybridRecommender α) : SavedModel α where
  config := ⟨h.cf_weight, h.cb_weight, h.id_mappings⟩
  cf_data := ⟨h.cf_model.user_factors, h.cf_model.item_factors,
    h.cf_model.user_idx_to_id, h.cf_model.item_idx_to_id,
    h.cf_model.user_id_to_idx, h.cf_model.item_id_to_idx,
    h.cf_model.global_mean, h.cf_model.n_factors⟩
  cb_data := ⟨h.cb_model.recipe_ids, h.cb_model.feature_matrix⟩

/-- `HybridRecommender.load_model`: build a fresh recommender and restore
every saved field; the dataframes are not part of the snapshot and stay
`None`. -/
def HybridRecommender.load_model {α : Type} (s : SavedModel α) : HybridRecommender α where
  cf_model := ⟨s.cf_data.n_factors, s.cf_data.user_factors, s.cf_data.item_factors,
    s.cf_data.user_idx_to_id, s.cf_data.item_idx_to_id,
    s.cf_data.user_id_to_idx, s.cf_data.item_id_to_idx, s.cf_data.global_mean⟩
  cb_model := ⟨s.cb_data.recipe_ids, s.cb_data.feature_matrix⟩
  cf_weight := s.config.cf_weight
  cb_weight := s.config.cb_weight
  interactions_df := none
  id_mappings := s.config.id_mappings

/-- C8: saving a fitted hybrid recommender and loading the snapshot back
reproduces the collaborative `predict` and `recommend_items` (rank)
outputs exactly, for every user id, item id, requested count and exclusion
set: every field those functions read is saved and restored verbatim. -/
theorem save_load_roundtrip_predict_rank {α : Type} [LinearOrderedField α]
    (h : HybridRecommender α) (user_id item_id n_recommendations : Nat)
    (exclude_items : List Nat) :
    (HybridRecommender.load_model (h.save_model)).cf_model.predict user_id item_id =
        h.cf_model.predict user_id item_id ∧
      (HybridRecommender.load_model (h.save_model)).cf_model.recommend_items
          user_id n_recommendations exclude_items =
        h.cf_model.recommend_items user_id n_recommendations exclude_items := by
  have hcf : (HybridRecommender.load_model (h.save_model)).cf_model = h.cf_model := rfl
  rw [hcf]
  exact ⟨rfl, rfl⟩

/-- The sorted distinct labels of a column: `sklearn.LabelEncoder.classes_`
(fit sorts the unique values). -/
def sortedClasses (l : List Nat) : List Nat :=
  l.dedup.insertionSort (· ≤ ·)

/-- `LabelEncoder.transform` of one label: its position among the sorted
distinct labels. -/
def label_transform (classes : List Nat) (x : Nat) : Nat :=
  classes.findIdx (fun y => y == x)

/-- The dense user index assigned by `user_encoder.fit_transform` in
`create_user_item_matrix`. -/
def encodeUser {α : Type} (interactions : List (Interaction α)) (u : Nat) : Nat :=
  label_transform (sortedClasses (interactions.map (·.user_id))) u

/-- The dense recipe index assigned by `recipe_encoder.fit_transform` in
`create_user_item_matrix`. -/
def encodeRecipe {α : Type} (interactions : List (Interaction α)) (i : Nat) : Nat :=
  label_transform (sortedClasses (interactions.map (·.recipe_id))) i

/-- `DataPreprocessor.create_user_item_matrix`: encode both id columns to
dense indices and build the sparse matrix from the COO triples
`(rating, (user_idx, recipe_idx))`.  `scipy.sparse.csr_matrix` sums
duplicate coordinate entries, so the entry at a position is the sum of all
ratings that mapped there. -/
def create_user_item_matrix {α : Type} [LinearOrderedField α]
    (interactions : List (Interaction α)) : Nat → Nat → α :=
  let entries := interactions.map (fun r =>
    (encodeUser interactions r.user_id, encodeRecipe interactions r.recipe_id, r.rating))
  fun user_idx recipe_idx =>
    ((entries.filter (fun e => e.1 == user_idx && e.2.1 == recipe_idx)).map
      (fun e => e.2.2)).sum

/-- `findIdx` of an equality test recovers the element it searched for. -/
theorem getElem?_findIdx_beq {x : Nat} :
    ∀ {l : List Nat}, x ∈ l → l[l.findIdx (fun y => y == x)]? = some x := by
  intro l
  induction l with
  | nil => intro h; simp at h
  | cons a as ih =>
    intro h
    by_cases ha : (a == x) = true
    · simp [List.findIdx_cons, ha, eq_of_beq ha]
    · have hx : x ∈ as := by
        rcases List.mem_cons.mp h with h | h
        · exact absurd (by simp [h]) ha
        · exact h
      simp [List.findIdx_cons, ha, ih hx]

/-- `label_transform` is injective on labels that occur in the class list. -/
theorem label_transform_inj {classes : List Nat} {x y : Nat}
    (hx : x ∈ classes) (hy : y ∈ classes)
    (h : label_transform classes x = label_transform classes y) : x = y := by
  have h1 := getElem?_findIdx_beq hx
  have h2 := getElem?_findIdx_beq hy
  rw [label_transform, label_transform] at h
  rw [h] at h1
  rw [h1] at h2
  exact (Option.some.injEq _ _).mp h2

/-- Membership in the sorted distinct labels is membership in the column. -/
theorem mem_sortedClasses {l : List Nat} {x : Nat} (hx : x ∈ l) : x ∈ sortedClasses l := by
  rw [sortedClasses, List.mem_insertionSort, List.mem_dedup]
  exact hx

/-- C6 counterexample input: the same (user 7, recipe 9) pair rated twice,
first 2 and then 5. -/
def dupRows : List (Interaction ℚ) := [⟨7, 9, 2⟩, ⟨7, 9, 5⟩]

/-- C6 counterexample: with two interactions for the same (user, item)
pair rated 2 then 5, the matrix entry at that pair's encoded position is
the sum 7 of the two ratings, not the most recently supplied value 5:
`csr_matrix` sums colliding COO entries instead of overwriting. -/
theorem create_user_item_matrix_not_last_write :
    encodeUser dupRows 7 = 0 ∧ encodeRecipe dupRows 9 = 0 ∧
      dupRows.map (fun r => r.rating) = [2, 5] ∧
      create_user_item_matrix dupRows 0 0 = 7 ∧ (7 : ℚ) ≠ 5 := by
  refine ⟨by decide, by decide, by norm_num [dupRows], ?_, by norm_num⟩
  norm_num +decide [create_user_item_matrix, dupRows, encodeUser, encodeRecipe,
    label_transform, sortedClasses, List.insertionSort, List.orderedInsert,
    List.findIdx, List.findIdx.go, List.dedup]

/-- C6 amended: at the encoded position of a (user, item) pair that occurs
in the interaction table, the matrix built by `create_user_item_matrix`
holds the sum of all ratings supplied for that pair (scipy's COO
duplicate-sum semantics), not the most recent one. -/
theorem create_user_item_matrix_sums_duplicates {α : Type} [LinearOrderedField α]
    (interactions : List (Interaction α)) (u i : Nat)
    (hu : u ∈ interactions.map (fun r => r.user_id))
    (hi : i ∈ interactions.map (fun r => r.recipe_id)) :
    create_user_item_matrix interactions (encodeUser interactions u)
        (encodeRecipe interactions i) =
      ((interactions.filter (fun r => r.user_id == u && r.recipe_id == i)).map
        (fun r => r.rating)).sum := by
  simp only [create_user_item_matrix]
  rw [List.filter_map]
  rw [List.map_map]
  have hcong : ∀ r ∈ interactions,
      ((fun e : Nat × Nat × α => e.1 == encodeUser interactions u &&
          e.2.1 == encodeRecipe interactions i) ∘
        (fun r : Interaction α =>
          (encodeUser interactions r.user_id, encodeRecipe interactions r.recipe_id,
            r.rating))) r =
      (fun r : Interaction α => r.user_id == u && r.recipe_id == i) r := by
    intro r hr
    simp only [Function.comp_apply]
    have h1 : (encodeUser interactions r.user_id == encodeUser interactions u) =
        (r.user_id == u) := by
      by_cases h : r.user_id = u
      · simp [h]
      · have hne : encodeUser interactions r.user_id ≠ encodeUser interactions u := fun hc =>
          h (label_transform_inj
            (mem_sortedClasses (List.mem_map_of_mem _ hr)) (mem_sortedClasses hu) hc)
        simp [h, hne]
    have h2 : (encodeRecipe interactions r.recipe_id == encodeRecipe interactions i) =
        (r.recipe_id == i) := by
      by_cases h : r.recipe_id = i
      · simp [h]
      · have hne : encodeRecipe interactions r.recipe_id ≠ encodeRecipe interactions i :=
          fun hc => h (label_transform_inj
            (mem_sortedClasses (List.mem_map_of_mem _ hr)) (mem_sortedClasses hi) hc)
        simp [h, hne]
    rw [h1, h2]
  rw [List.filter_congr hcong]
  rfl

/-- Witness for the amended C6: on the duplicated-pair table the encoded
cell holds the sum of the two ratings for that pair. -/
theorem create_user_item_matrix_sums_duplicates_witness :
    create_user_item_matrix dupRows (encodeUser dupRows 7) (encodeRecipe dupRows 9) =
      ((dupRows.filter (fun r => r.user_id == 7 && r.recipe_id == 9)).map
        (fun r => r.rating)).sum :=
  create_user_item_matrix_sums_duplicates dupRows 7 9 (by decide) (by decide)

/-- One step of a linear congruential generator on 64-bit state.  It stands
in for numpy's global pseudo-random generator in `np.random.choice`: the
library's exact bit stream is outside the repository, and the claims about
the sampling step (boundedness, no replacement, determinism in the state)
do not depend on which deterministic generator drives the draws. -/
def lcg_next (s : Nat) : Nat :=
  (6364136223846793005 * s + 1442695040888963407) % 18446744073709551616

/-- Selection-without-replacement driven by the generator state: repeatedly
draw the element at position `state mod remaining-length` and remove it.
The fuel argument is the initial length, so the recursion consumes the
whole list. -/
def drawPermAux {γ : Type} : Nat → Nat → List γ → List γ
  | 0, _, _ => []
  | fuel + 1, s, l =>
    match l[s % l.length]? with
    | none => []
    | some a => a :: drawPermAux fuel (lcg_next s) (l.eraseIdx (s % l.length))

/-- `np.random.choice(pool, k, replace=False)`: the first `k` entries of a
state-determined permutation of the pool. -/
def np_random_choice {γ : Type} (s : Nat) (l : List γ) (k : Nat) : List γ :=
  (drawPermAux l.length s l).take k

/-- The bounded sample size of `evaluate_model_comprehensive`:
`min(500, len(valid_test_users))`. -/
def sample_size (valid_test_users : List Nat) : Nat :=
  min 500 valid_test_users.length

/-- The sampling step of `evaluate_model_comprehensive` (lines 76-78):
`np.random.choice(valid_test_users, sample_size, replace=False)` at a
given generator state. -/
def sampled_users (state : Nat) (valid_test_users : List Nat) : List Nat :=
  np_random_choice state valid_test_users (sample_size valid_test_users)

/-- Removing the element delivered by an index lookup is a permutation. -/
theorem perm_getElem_cons_eraseIdx {γ : Type} :
    ∀ (l : List γ) (i : Nat) (a : γ), l[i]? = some a → l.Perm (a :: l.eraseIdx i) := by
  intro l
  induction l with
  | nil => intro i a h; simp at h
  | cons x xs ih =>
    intro i a h
    rcases i with _ | i
    · simp only [List.getElem?_cons_zero, Option.some.injEq] at h
      subst h
      simp [List.eraseIdx]
    · simp only [List.getElem?_cons_succ] at h
      exact ((ih i a h).cons x).trans (List.Perm.swap a x _)

/-- Run to exhaustion, the draws produce a permutation of the pool. -/
theorem drawPermAux_perm {γ : Type} :
    ∀ (fuel s : Nat) (l : List γ), l.length = fuel → (drawPermAux fuel s l).Perm l := by
  intro fuel
  induction fuel with
  | zero =>
    intro s l h
    have hl : l = [] := List.length_eq_zero.mp h
    subst hl
    simp [drawPermAux]
  | succ n ih =>
    intro s l h
    have hlen : 0 < l.length := by omega
    have hidx : s % l.length < l.length := Nat.mod_lt _ hlen
    rcases hget : l[s % l.length]? with _ | a
    · rw [List.getElem?_eq_none_iff] at hget
      omega
    · have herase : (l.eraseIdx (s % l.length)).length = n := by
        rw [List.length_eraseIdx]
        simp only [hidx, if_pos]
        omega
      have hrec := ih (lcg_next s) (l.eraseIdx (s % l.length)) herase
      have hl : l.Perm (a :: l.eraseIdx (s % l.length)) :=
        perm_getElem_cons_eraseIdx l _ a hget
      simp only [drawPermAux, hget]
      exact (hrec.cons a).trans hl.symm

/-- C9: the evaluation harness samples at most 500 users, the sample is
drawn without replacement (no user appears twice and every sampled user is
an eligible user), and the sampling step is a deterministic function of
the generator state and the eligible-user list: two runs from the same
state over the same users select the same sample. -/
theorem evaluation_sampling_spec (state : Nat) (valid_test_users : List Nat)
    (hnodup : valid_test_users.Nodup) :
    (sampled_users state valid_test_users).length = sample_size valid_test_users ∧
      (sampled_users state valid_test_users).length ≤ 500 ∧
      (sampled_users state valid_test_users).Nodup ∧
      (∀ u ∈ sampled_users state valid_test_users, u ∈ valid_test_users) ∧
      (∀ state2 users2, state2 = state → users2 = valid_test_users →
        sampled_users state2 users2 = sampled_users state valid_test_users) := by
  have hperm : (drawPermAux valid_test_users.length state valid_test_users).Perm
      valid_test_users :=
    drawPermAux_perm valid_test_users.length state valid_test_users rfl
  have hlen : (sampled_users state valid_test_users).length = sample_size valid_test_users := by
    simp only [sampled_users, np_random_choice, List.length_take, hperm.length_eq,
      sample_size]
    omega
  refine ⟨hlen, ?_, ?_, ?_, ?_⟩
  · rw [hlen]
    exact min_le_left _ _
  · exact ((hperm.symm.nodup hnodup).sublist (List.take_sublist _ _) : _)
  · intro u hu
    exact hperm.mem_iff.mp (List.mem_of_mem_take hu)
  · intro state2 users2 h1 h2
    rw [h1, h2]

/-- Witness for C9 at a concrete state and eligible-user list. -/
theorem evaluation_sampling_spec_witness :
    (sampled_users 0 [3, 1, 2]).length = sample_size [3, 1, 2] ∧
      (sampled_users 0 [3, 1, 2]).length ≤ 500 ∧
      (sampled_users 0 [3, 1, 2]).Nodup ∧
      (∀ u ∈ sampled_users 0 [3, 1, 2], u ∈ [3, 1, 2]) ∧
      (∀ state2 users2, state2 = 0 → users2 = [3, 1, 2] →
        sampled_users state2 users2 = sampled_users 0 [3, 1, 2]) :=
  evaluation_sampling_spec 0 [3, 1, 2] (by decide)

/-- Arithmetic mean of one numeric attribute column
(`numerical_features.mean(axis=0)` for that column). -/
noncomputable def colMean (col : List ℝ) : ℝ :=
  col.sum / col.length

/-- The numpy population standard deviation of one column
(`numerical_features.std(axis=0)`): the square root of the mean squared
deviation. -/
noncomputable def np_std (col : List ℝ) : ℝ :=
  Real.sqrt ((col.map (fun x => (x - colMean col) ^ 2)).sum / col.length)

/-- The z-score denominator of `ContentBasedModel.fit` line 125:
`numerical_features.std(axis=0) + 1e-8`. -/
noncomputable def std_denominator (col : List ℝ) : ℝ :=
  np_std col + 1e-8

/-- The z-score normalization of one numeric attribute column in
`ContentBasedModel.fit`:
`(numerical_features - mean) / (std + 1e-8)`, column-wise. -/
noncomputable def normalize_numerical_column (col : List ℝ) : List ℝ :=
  col.map (fun x => (x - colMean col) / std_denominator col)

/-- C10: for every numeric attribute column, including a constant one with
zero standard deviation, the divisor used by the z-score normalization in
`ContentBasedModel.fit` is the standard deviation plus `1e-8`, which is
strictly positive (the standard deviation is a square root, hence
nonnegative), so the normalization step never divides by zero. -/
theorem content_fit_std_denominator_pos (col : List ℝ) :
    0 < std_denominator col ∧ std_denominator col ≠ 0 ∧
      normalize_numerical_column col =
        col.map (fun x => (x - colMean col) / std_denominator col) := by
  have hs : 0 ≤ np_std col := Real.sqrt_nonneg _
  have he : (0 : ℝ) < 1e-8 := by norm_num
  have hpos : 0 < std_denominator col := by
    rw [std_denominator]
    linarith
  exact ⟨hpos, ne_of_gt hpos, rfl⟩

/-- Cosine similarity of two feature rows
(`sklearn.metrics.pairwise.cosine_similarity` on one pair): the dot
product over the product of Euclidean norms.  A zero row has similarity 0
to everything (Lean's division by zero is 0, matching sklearn, which
leaves zero rows at zero). -/
noncomputable def cosine_similarity (u v : List ℝ) : ℝ :=
  dot u v / (Real.sqrt (dot u u) * Real.sqrt (dot v v))

/-- `ndarray.argsort()`: the indices that sort the array ascending.  numpy
keeps equal elements in index order on the array sizes at issue (its
quicksort falls back to insertion sort below 16 elements, and  the stable
kinds always do), so the embedding is the stable ascending argsort. -/
noncomputable def np_argsort (l : List ℝ) : List Nat :=
  (l.enum.insertionSort (fun a b => a.2 ≤ b.2)).map Prod.fst

/-- `ContentBasedModel.get_similar_items`: locate the query row
(`list.index`; a `ValueError` for an unknown id is caught and yields
`[]`), compute the cosine similarity of the query row against every row,
reverse the ascending argsort and drop its first element (intended to be
the query item itself), then return the next `n_similar` (id, similarity)
pairs.  The row accesses are in range whenever `fit` built the state,
where the feature matrix has exactly one row per recipe id; `getD`
embeds them total with that invariant. -/
noncomputable def ContentBasedModel.get_similar_items (cb : ContentBasedModel ℝ)
    (item_id n_similar : Nat) : List (Nat × ℝ) :=
  match cb.recipe_ids.findIdx? (fun y => y == item_id) with
  | none => []
  | some item_idx =>
    let item_vector := cb.feature_matrix.getD item_idx []
    let similarities := cb.feature_matrix.map (fun row => cosine_similarity item_vector row)
    let similar_indices := (((np_argsort similarities).reverse).drop 1).take n_similar
    similar_indices.map (fun idx => (cb.recipe_ids.getD idx 0, similarities.getD idx 0))

/-- C5 failing input: two items whose feature rows are identical, querying
the one that sits at index 0. -/
def cbTie : ContentBasedModel ℝ where
  recipe_ids := [10, 20]
  feature_matrix := [[3, 4], [3, 4]]

/-- C5: with two identical feature rows both items have cosine similarity
1 to the query row, the reversed argsort `[1, 0]` starts with the *other*
item, and dropping the first entry drops that other item instead of the
query: `get_similar_items 10 1` returns the query item 10 itself, with
similarity 1, contradicting the self-exclusion the code's own comment
claims. -/
theorem get_similar_items_includes_query_item_on_tie :
    cbTie.get_similar_items 10 1 = [(10, 1)] := by
  have hcos : cosine_similarity [(3 : ℝ), 4] [(3 : ℝ), 4] = 1 := by
    rw [cosine_similarity]
    norm_num [dot]
  norm_num [ContentBasedModel.get_similar_items, cbTie, List.findIdx?, np_argsort,
    List.insertionSort, List.orderedInsert, List.enum, List.enumFrom, List.getD, hcos]

/-- A dot product of a vector with itself is nonnegative. -/
theorem dot_self_nonneg {α : Type} [LinearOrderedField α] (u : List α) : 0 ≤ dot u u := by
  induction u with
  | nil => simp [dot]
  | cons x xs ih =>
    have hx : (0 : α) ≤ x * x := mul_self_nonneg x
    calc (0 : α) ≤ x * x + dot xs xs := by linarith
      _ = dot (x :: xs) (x :: xs) := by simp [dot]

/-- Cauchy-Schwarz for list dot products. -/
theorem dot_sq_le_dot_mul_dot {α : Type} [LinearOrderedField α] :
    ∀ (u v : List α), dot u v ^ 2 ≤ dot u u * dot v v := by
  intro u
  induction u with
  | nil => intro v; simp [dot]
  | cons x xs ih =>
    intro v
    cases v with
    | nil =>
      simp [dot]
    | cons y ys =>
      have h := ih ys
      have ha := dot_self_nonneg xs
      have hb := dot_self_nonneg ys
      have hd : dot (x :: xs) (y :: ys) = x * y + dot xs ys := by simp [dot]
      have hu : dot (x :: xs) (x :: xs) = x * x + dot xs xs := by simp [dot]
      have hv : dot (y :: ys) (y :: ys) = y * y + dot ys ys := by simp [dot]
      rw [hd, hu, hv]
      by_cases hb0 : dot ys ys = 0
      · have hd0 : dot xs ys = 0 := by
          have h0 : dot xs ys ^ 2 ≤ 0 := by rw [hb0] at h; linarith
          have := sq_nonneg (dot xs ys)
          have hsq : dot xs ys ^ 2 = 0 := le_antisymm h0 this
          exact pow_eq_zero_iff (by norm_num) |>.mp hsq
        rw [hb0, hd0]
        nlinarith [mul_nonneg ha (sq_nonneg y)]
      · have hbpos : 0 < dot ys ys := lt_of_le_of_ne hb (Ne.symm hb0)
        nlinarith [sq_nonneg (x * dot ys ys - y * dot xs ys),
          mul_nonneg (add_nonneg (sq_nonneg y) hb) (sub_nonneg.mpr h), hbpos]

/-- Cosine similarity never exceeds 1. -/
theorem cosine_similarity_le_one (u v : List ℝ) : cosine_similarity u v ≤ 1 := by
  rw [cosine_similarity]
  have hden : 0 ≤ Real.sqrt (dot u u) * Real.sqrt (dot v v) :=
    mul_nonneg (Real.sqrt_nonneg _) (Real.sqrt_nonneg _)
  refine div_le_one_of_le₀ ?_ hden
  have h1 : dot u v ≤ |dot u v| := le_abs_self _
  have h2 : |dot u v| = Real.sqrt (dot u v ^ 2) := (Real.sqrt_sq_eq_abs _).symm
  have h3 : Real.sqrt (dot u v ^ 2) ≤ Real.sqrt (dot u u * dot v v) :=
    Real.sqrt_le_sqrt (dot_sq_le_dot_mul_dot u v)
  have h4 : Real.sqrt (dot u u * dot v v) =
      Real.sqrt (dot u u) * Real.sqrt (dot v v) :=
    Real.sqrt_mul (dot_self_nonneg u) _
  linarith [h1.trans (h2.le.trans (h3.trans h4.le))]

/-- Componentwise sum of a stack of equal-length rows. -/
def vecSum {α : Type} [LinearOrderedField α] : List (List α) → List α
  | [] => []
  | r :: rs => rs.foldl (fun acc row => List.zipWith (· + ·) acc row) r

/-- Componentwise mean of a stack of rows (`matrix.mean(axis=0)`). -/
def vecMean {α : Type} [LinearOrderedField α] (rows : List (List α)) : List α :=
  (vecSum rows).map (fun x => x / rows.length)

/-- `ContentBasedModel.recommend_based_on_profile`: an empty liked list is
a cold start (empty result); unknown liked ids are skipped
(`except ValueError: continue`), and if none remain the result is empty;
otherwise the profile is the mean of the liked rows, every item is scored
by cosine similarity to the profile, liked items are filtered out and the
stable descending sort is truncated to the requested count. -/
noncomputable def ContentBasedModel.recommend_based_on_profile (cb : ContentBasedModel ℝ)
    (liked_items : List Nat) (n_recommendations : Nat) : List (Nat × ℝ) :=
  if liked_items.isEmpty then []
  else
    let liked_indices := liked_items.filterMap (fun id => cb.recipe_ids.findIdx? (fun y => y == id))
    if liked_indices.isEmpty then []
    else
      let user_profile := vecMean (liked_indices.map (fun i => cb.feature_matrix.getD i []))
      let similarities := cb.feature_matrix.map (fun row => cosine_similarity user_profile row)
      let recommendations :=
        (cb.recipe_ids.zip similarities).filter (fun p => decide (p.1 ∉ liked_items))
      (sortByScoreDesc recommendations).take n_recommendations

/-- Every content-based score is a cosine similarity, hence at most 1. -/
theorem recommend_based_on_profile_score_le_one (cb : ContentBasedModel ℝ)
    (liked_items : List Nat) (n_recommendations : Nat) :
    ∀ p ∈ cb.recommend_based_on_profile liked_items n_recommendations, p.2 ≤ 1 := by
  intro p hp
  simp only [ContentBasedModel.recommend_based_on_profile] at hp
  by_cases h1 : liked_items.isEmpty
  · simp [h1] at hp
  · rw [if_neg h1] at hp
    by_cases h2 : (liked_items.filterMap
        (fun id => cb.recipe_ids.findIdx? (fun y => y == id))).isEmpty
    · rw [if_pos h2] at hp
      simp at hp
    · rw [if_neg h2] at hp
      have hp2 := List.mem_of_mem_take hp
      have hp3 := (sortByScoreDesc_perm _).mem_iff.mp hp2
      have hp4 := List.mem_of_mem_filter hp3
      rcases p with ⟨pid, ps⟩
      have hzip := List.of_mem_zip hp4
      rcases List.mem_map.mp hzip.2 with ⟨row, _, heq⟩
      exact heq ▸ cosine_similarity_le_one _ row

/-- The recipe ids a user has already rated: `rated_items` in
`HybridRecommender.recommend` (membership is all the code uses of the
Python set). -/
def userRatedItems {α : Type} (df : List (Interaction α)) (user_id : Nat) : List Nat :=
  (df.filter (fun r => r.user_id == user_id)).map (fun r => r.recipe_id)

/-- The recipe ids the user rated at least 4: `liked_items` in
`HybridRecommender.recommend`. -/
def userLikedItems {α : Type} [LinearOrderedField α] (df : List (Interaction α))
    (user_id : Nat) : List Nat :=
  ((df.filter (fun r => r.user_id == user_id)).filter (fun r => decide (4 ≤ r.rating))).map
    (fun r => r.recipe_id)

/-- The collaborative normalization of `HybridRecommender.recommend` line
249: `cf_score / 5.0 if cf_score > 0 else 0`. -/
def cf_score_norm {α : Type} [LinearOrderedField α] (cf_score : α) : α :=
  if 0 < cf_score then cf_score / 5 else 0

/-- The content normalization of `HybridRecommender.recommend` line 250:
`cb_score if cb_score > 0 else 0`. -/
def cb_score_norm {α : Type} [LinearOrderedField α] (cb_score : α) : α :=
  if 0 < cb_score then cb_score else 0

/-- The fusion loop of `HybridRecommender.recommend` lines 240-256: over
the union of the two candidate id sets (Python iterates a `set`, whose
order is unspecified; the embedding fixes first-occurrence order, and no
proved property depends on it), skip already-rated items and assign
`cf_weight * cf_norm + cb_weight * cb_norm`, where an id missing from a
candidate dict contributes its `.get(item_id, 0)` default. -/
def hybrid_scores_list {α : Type} [LinearOrderedField α] (cf_weight cb_weight : α)
    (cf_recs cb_recs : List (Nat × α)) (rated_items : List Nat) : List (Nat × α) :=
  ((cf_recs.map Prod.fst ++ cb_recs.map Prod.fst).dedup).filterMap (fun item_id =>
    if item_id ∈ rated_items then none
    else some (item_id,
      cf_weight * cf_score_norm (dictGet cf_recs item_id 0) +
        cb_weight * cb_score_norm (dictGet cb_recs item_id 0)))

/-- `HybridRecommender.recommend`: gather the user's rated and liked
items, query both sub-models for `3 * n` candidates, fuse the scores over
the candidate union and return the top `n` by descending hybrid score.  A
freshly loaded model has `interactions_df = None` and the attribute access
fails (`none`); an exception escaping the collaborative query also
propagates. -/
noncomputable def HybridRecommender.recommend (h : HybridRecommender ℝ)
    (user_id n_recommendations : Nat) : Option (List (Nat × ℝ)) :=
  match h.interactions_df with
  | none => none
  | some df =>
    let rated_items := userRatedItems df user_id
    let liked_items := userLikedItems df user_id
    match h.cf_model.recommend_items user_id (n_recommendations * 3) rated_items with
    | none => none
    | some cf_recs =>
      let cb_recs := h.cb_model.recommend_based_on_profile liked_items (n_recommendations * 3)
      some ((sortByScoreDesc
        (hybrid_scores_list h.cf_weight h.cb_weight cf_recs cb_recs rated_items)).take
          n_recommendations)

/-- Membership in the fused score list characterised: an entry is a
non-rated candidate-union id together with exactly the weighted sum of the
two normalized sub-scores. -/
theorem mem_hybrid_scores_list {α : Type} [LinearOrderedField α] {cf_weight cb_weight : α}
    {cf_recs cb_recs : List (Nat × α)} {rated_items : List Nat} {p : Nat × α} :
    p ∈ hybrid_scores_list cf_weight cb_weight cf_recs cb_recs rated_items ↔
      p.1 ∈ (cf_recs.map Prod.fst ++ cb_recs.map Prod.fst).dedup ∧
        p.1 ∉ rated_items ∧
        p.2 = cf_weight * cf_score_norm (dictGet cf_recs p.1 0) +
          cb_weight * cb_score_norm (dictGet cb_recs p.1 0) := by
  rw [hybrid_scores_list, List.mem_filterMap]
  constructor
  · rintro ⟨a, ha, hfa⟩
    by_cases hr : a ∈ rated_items
    · rw [if_pos hr] at hfa
      exact absurd hfa (by simp)
    · rw [if_neg hr] at hfa
      rcases Option.some.inj hfa with rfl
      exact ⟨ha, hr, rfl⟩
  · rintro ⟨hmem, hr, hs⟩
    refine ⟨p.1, hmem, ?_⟩
    rw [if_neg hr, ← hs, Prod.mk.eta]

/-- C1 amended: for every candidate item in the union of the two
sub-models' candidate sets that the user has not already rated, the hybrid
score computed by `HybridRecommender.recommend` is
`cf_weight * cf_norm + cb_weight * cb_norm`, where the collaborative term
is the collaborative score divided by 5 **when that score is positive and
0 otherwise** (non-positive collaborative scores are clamped to 0, exactly
like negative cosine similarities on the content side), the content term
is the cosine similarity with non-positives clamped to 0, an item absent
from one sub-model's candidate set contributes that term's `.get` default
0, and the default weights 0.6/0.4 sum to 1; every entry of the returned
list carries exactly this fused score. -/
theorem recommend_hybrid_fusion_formula (h : HybridRecommender ℝ)
    (df : List (Interaction ℝ)) (user_id n_recommendations : Nat)
    (cf_recs : List (Nat × ℝ)) (l : List (Nat × ℝ))
    (hdf : h.interactions_df = some df)
    (hcf : h.cf_model.recommend_items user_id (n_recommendations * 3)
      (userRatedItems df user_id) = some cf_recs)
    (hrec : h.recommend user_id n_recommendations = some l) :
    (∀ item_id ∈ (cf_recs.map Prod.fst ++
        (h.cb_model.recommend_based_on_profile (userLikedItems df user_id)
          (n_recommendations * 3)).map Prod.fst).dedup,
      item_id ∉ userRatedItems df user_id →
        (item_id,
          h.cf_weight * cf_score_norm (dictGet cf_recs item_id 0) +
            h.cb_weight * cb_score_norm (dictGet
              (h.cb_model.recommend_based_on_profile (userLikedItems df user_id)
                (n_recommendations * 3)) item_id 0)) ∈
          hybrid_scores_list h.cf_weight h.cb_weight cf_recs
            (h.cb_model.recommend_based_on_profile (userLikedItems df user_id)
              (n_recommendations * 3)) (userRatedItems df user_id)) ∧
      (∀ p ∈ l, p.1 ∉ userRatedItems df user_id ∧
        p.2 = h.cf_weight * cf_score_norm (dictGet cf_recs p.1 0) +
          h.cb_weight * cb_score_norm (dictGet
            (h.cb_model.recommend_based_on_profile (userLikedItems df user_id)
              (n_recommendations * 3)) p.1 0)) ∧
      defaultWeights.1 + defaultWeights.2 = 1 := by
  refine ⟨?_, ?_, by norm_num [defaultWeights]⟩
  · intro item_id hmem hnr
    exact mem_hybrid_scores_list.mpr ⟨hmem, hnr, rfl⟩
  · intro p hp
    simp only [HybridRecommender.recommend, hdf, hcf, Option.some.injEq] at hrec
    subst hrec
    have hp2 := (sortByScoreDesc_perm _).mem_iff.mp (List.mem_of_mem_take hp)
    rcases mem_hybrid_scores_list.mp hp2 with ⟨_, hnr, hs⟩
    exact ⟨hnr, hs⟩

/-- Counterexample state for C1: one item whose unclamped collaborative
score is negative (`global_mean 0`, factor product `-5`), weights
`3/5 + 2/5 = 1`, no interactions. -/
noncomputable def hybridNeg : HybridRecommender ℝ where
  cf_model := ⟨1, [[1]], [[-5]], [(0, 1)], [(0, 9)], [(1, 0)], [(9, 0)], 0⟩
  cb_model := ⟨[], []⟩
  cf_weight := 3 / 5
  cb_weight := 2 / 5
  interactions_df := some []
  id_mappings := none

/-- C1 counterexample: candidate 9 has collaborative score `-5`, and
`recommend` assigns it the hybrid score 0 (the negative score is clamped
before dividing by 5), while the claimed formula
`w_cf * (cf / 5) + w_cb * cb_norm` evaluates to `-(3/5) ≠ 0`: the
collaborative term is not unconditionally the collaborative score divided
by 5. -/
theorem recommend_score_deviates_from_unclamped_formula :
    hybridNeg.recommend 1 1 = some [(9, 0)] ∧
      hybridNeg.cf_model.recommend_items 1 3 (userRatedItems ([] : List (Interaction ℝ)) 1) =
        some [(9, -5)] ∧
      hybridNeg.cf_weight * (dictGet [((9 : Nat), (-5 : ℝ))] 9 0 / 5) +
          hybridNeg.cb_weight * cb_score_norm (dictGet [] 9 0) = -(3 / 5) ∧
      (0 : ℝ) ≠ -(3 / 5) := by
  refine ⟨?_, ?_, ?_, by norm_num⟩
  · norm_num +decide [HybridRecommender.recommend, hybridNeg, userRatedItems, userLikedItems,
      CollaborativeFilteringModel.recommend_items, buildRecs, sortByScoreDesc,
      List.insertionSort, List.orderedInsert, List.lookup, List.enum, List.enumFrom, dot,
      ContentBasedModel.recommend_based_on_profile, hybrid_scores_list, cf_score_norm,
      cb_score_norm, dictGet, List.dedup, List.pwFilter]
  · norm_num +decide [hybridNeg, userRatedItems, CollaborativeFilteringModel.recommend_items,
      buildRecs, sortByScoreDesc, List.insertionSort, List.orderedInsert, List.lookup,
      List.enum, List.enumFrom, dot]
  · norm_num [hybridNeg, cb_score_norm, dictGet]

/-- The collaborative normalization is nonnegative. -/
theorem cf_score_norm_nonneg {α : Type} [LinearOrderedField α] (x : α) :
    0 ≤ cf_score_norm x := by
  rw [cf_score_norm]
  split
  · positivity
  · exact le_rfl

/-- The collaborative normalization of a score at most 5 is at most 1. -/
theorem cf_score_norm_le_one {α : Type} [LinearOrderedField α] {x : α} (hx : x ≤ 5) :
    cf_score_norm x ≤ 1 := by
  rw [cf_score_norm]
  split
  · rw [div_le_one (by norm_num : (0 : α) < 5)]
    exact hx
  · norm_num

/-- The content normalization is nonnegative. -/
theorem cb_score_norm_nonneg {α : Type} [LinearOrderedField α] (x : α) :
    0 ≤ cb_score_norm x := by
  rw [cb_score_norm]
  split
  · linarith [lt_of_lt_of_le (by assumption : (0 : α) < x) le_rfl]
  · exact le_rfl

/-- The content normalization of a score at most 1 is at most 1. -/
theorem cb_score_norm_le_one {α : Type} [LinearOrderedField α] {x : α} (hx : x ≤ 1) :
    cb_score_norm x ≤ 1 := by
  rw [cb_score_norm]
  split
  · exact hx
  · norm_num

/-- C1 witness state: one item with positive collaborative score 2,
weights `3/5 + 2/5 = 1`, no interactions. -/
noncomputable def hybridMild : HybridRecommender ℝ where
  cf_model := ⟨1, [[1]], [[2]], [(0, 1)], [(0, 9)], [(1, 0)], [(9, 0)], 0⟩
  cb_model := ⟨[], []⟩
  cf_weight := 3 / 5
  cb_weight := 2 / 5
  interactions_df := some []
  id_mappings := none

/-- Witness for the amended C1 at a concrete state: candidate 9 receives
exactly the fused score, and the defaults sum to 1. -/
theorem recommend_hybrid_fusion_formula_witness :
    (∀ item_id ∈ ([((9 : Nat), (2 : ℝ))].map Prod.fst ++
        (hybridMild.cb_model.recommend_based_on_profile
          (userLikedItems ([] : List (Interaction ℝ)) 1) (1 * 3)).map Prod.fst).dedup,
      item_id ∉ userRatedItems ([] : List (Interaction ℝ)) 1 →
        (item_id,
          hybridMild.cf_weight * cf_score_norm (dictGet [((9 : Nat), (2 : ℝ))] item_id 0) +
            hybridMild.cb_weight * cb_score_norm (dictGet
              (hybridMild.cb_model.recommend_based_on_profile
                (userLikedItems ([] : List (Interaction ℝ)) 1) (1 * 3)) item_id 0)) ∈
          hybrid_scores_list hybridMild.cf_weight hybridMild.cb_weight [((9 : Nat), (2 : ℝ))]
            (hybridMild.cb_model.recommend_based_on_profile
              (userLikedItems ([] : List (Interaction ℝ)) 1) (1 * 3))
            (userRatedItems ([] : List (Interaction ℝ)) 1)) ∧
      (∀ p ∈ [((9 : Nat), (6 / 25 : ℝ))], p.1 ∉ userRatedItems ([] : List (Interaction ℝ)) 1 ∧
        p.2 = hybridMild.cf_weight * cf_score_norm (dictGet [((9 : Nat), (2 : ℝ))] p.1 0) +
          hybridMild.cb_weight * cb_score_norm (dictGet
            (hybridMild.cb_model.recommend_based_on_profile
              (userLikedItems ([] : List (Interaction ℝ)) 1) (1 * 3)) p.1 0)) ∧
      defaultWeights.1 + defaultWeights.2 = 1 :=
  recommend_hybrid_fusion_formula hybridMild [] 1 1 [(9, 2)] [(9, 6 / 25)]
    rfl
    (by norm_num +decide [hybridMild, userRatedItems, CollaborativeFilteringModel.recommend_items,
      buildRecs, sortByScoreDesc, List.insertionSort, List.orderedInsert, List.lookup,
      List.enum, List.enumFrom, dot])
    (by norm_num +decide [HybridRecommender.recommend, hybridMild, userRatedItems,
      userLikedItems, CollaborativeFilteringModel.recommend_items, buildRecs, sortByScoreDesc,
      List.insertionSort, List.orderedInsert, List.lookup, List.enum, List.enumFrom, dot,
      ContentBasedModel.recommend_based_on_profile, hybrid_scores_list, cf_score_norm,
      cb_score_norm, dictGet, List.dedup, List.pwFilter])

/-- C2 amended: whenever the fusion weights are nonnegative and sum to 1,
every score returned by `HybridRecommender.recommend` is nonnegative, and
is at most 1 provided every collaborative candidate score is at most 5.
The collaborative candidate scores are the **unclamped**
`global_mean + dot` predictions, which can exceed 5, and then the fused
score exceeds 1 (see the counterexample), so the cap is a real extra
hypothesis rather than a property of the code. -/
theorem recommend_scores_bounds (h : HybridRecommender ℝ)
    (df : List (Interaction ℝ)) (user_id n_recommendations : Nat)
    (cf_recs : List (Nat × ℝ)) (l : List (Nat × ℝ))
    (hdf : h.interactions_df = some df)
    (hcf : h.cf_model.recommend_items user_id (n_recommendations * 3)
      (userRatedItems df user_id) = some cf_recs)
    (hw1 : 0 ≤ h.cf_weight) (hw2 : 0 ≤ h.cb_weight)
    (hw : h.cf_weight + h.cb_weight = 1)
    (hcap : ∀ p ∈ cf_recs, p.2 ≤ 5)
    (hrec : h.recommend user_id n_recommendations = some l) :
    ∀ p ∈ l, 0 ≤ p.2 ∧ p.2 ≤ 1 := by
  intro p hp
  simp only [HybridRecommender.recommend, hdf, hcf, Option.some.injEq] at hrec
  subst hrec
  have hp2 := (sortByScoreDesc_perm _).mem_iff.mp (List.mem_of_mem_take hp)
  rcases mem_hybrid_scores_list.mp hp2 with ⟨_, _, hs⟩
  have hcfv : dictGet cf_recs p.1 0 ≤ 5 := by
    rcases dictGet_eq_default_or_mem cf_recs p.1 0 with hd | ⟨q, hq, _, hv⟩
    · rw [hd]; norm_num
    · rw [hv]; exact hcap q hq
  have hcbv : dictGet (h.cb_model.recommend_based_on_profile (userLikedItems df user_id)
      (n_recommendations * 3)) p.1 0 ≤ 1 := by
    rcases dictGet_eq_default_or_mem (h.cb_model.recommend_based_on_profile
        (userLikedItems df user_id) (n_recommendations * 3)) p.1 0 with hd | ⟨q, hq, _, hv⟩
    · rw [hd]; norm_num
    · rw [hv]; exact recommend_based_on_profile_score_le_one _ _ _ q hq
  have h1 := cf_score_norm_nonneg (dictGet cf_recs p.1 0)
  have h2 := cb_score_norm_nonneg (dictGet (h.cb_model.recommend_based_on_profile
    (userLikedItems df user_id) (n_recommendations * 3)) p.1 0)
  have h3 := cf_score_norm_le_one hcfv
  have h4 := cb_score_norm_le_one hcbv
  constructor
  · rw [hs]
    have := mul_nonneg hw1 h1
    have := mul_nonneg hw2 h2
    linarith
  · rw [hs]
    have ha := mul_le_mul_of_nonneg_left h3 hw1
    have hb := mul_le_mul_of_nonneg_left h4 hw2
    linarith

/-- C2 counterexample state: one item whose unclamped collaborative score
is 9 (far above the rating scale), weights `3/5 + 2/5 = 1`. -/
noncomputable def hybridHot : HybridRecommender ℝ where
  cf_model := ⟨1, [[1]], [[9]], [(0, 1)], [(0, 9)], [(1, 0)], [(9, 0)], 0⟩
  cb_model := ⟨[], []⟩
  cf_weight := 3 / 5
  cb_weight := 2 / 5
  interactions_df := some []
  id_mappings := none

/-- C2 counterexample: `recommend` returns the score `27/25 > 1` for item
9: the collaborative candidate score 9 is unclamped, its normalization
`9/5` exceeds 1, and the fused score `(3/5)*(9/5) = 27/25` escapes
`[0, 1]`. -/
theorem recommend_score_exceeds_one :
    hybridHot.recommend 1 1 = some [(9, 27 / 25)] ∧ ¬((27 / 25 : ℝ) ≤ 1) := by
  constructor
  · norm_num +decide [HybridRecommender.recommend, hybridHot, userRatedItems, userLikedItems,
      CollaborativeFilteringModel.recommend_items, buildRecs, sortByScoreDesc,
      List.insertionSort, List.orderedInsert, List.lookup, List.enum, List.enumFrom, dot,
      ContentBasedModel.recommend_based_on_profile, hybrid_scores_list, cf_score_norm,
      cb_score_norm, dictGet, List.dedup, List.pwFilter]
  · norm_num

/-- C2 witness state: one item with collaborative score 2 (within the
rating scale), weights `3/5 + 2/5 = 1`. -/
noncomputable def hybridWarm : HybridRecommender ℝ where
  cf_model := ⟨1, [[1]], [[2]], [(0, 1)], [(0, 9)], [(1, 0)], [(9, 0)], 0⟩
  cb_model := ⟨[], []⟩
  cf_weight := 3 / 5
  cb_weight := 2 / 5
  interactions_df := some []
  id_mappings := none

/-- Witness for the amended C2 at a concrete state where the collaborative
candidates stay within the rating scale: the returned score lies in
`[0, 1]`. -/
theorem recommend_scores_bounds_witness :
    (0 : ℝ) ≤ ((9 : Nat), (6 / 25 : ℝ)).2 ∧ ((9 : Nat), (6 / 25 : ℝ)).2 ≤ 1 :=
  recommend_scores_bounds hybridWarm [] 1 1 [(9, 2)] [(9, 6 / 25)]
    rfl
    (by norm_num +decide [hybridWarm, userRatedItems, CollaborativeFilteringModel.recommend_items,
      buildRecs, sortByScoreDesc, List.insertionSort, List.orderedInsert, List.lookup,
      List.enum, List.enumFrom, dot])
    (by norm_num [hybridWarm]) (by norm_num [hybridWarm]) (by norm_num [hybridWarm])
    (by norm_num)
    (by norm_num +decide [HybridRecommender.recommend, hybridWarm, userRatedItems,
      userLikedItems, CollaborativeFilteringModel.recommend_items, buildRecs, sortByScoreDesc,
      List.insertionSort, List.orderedInsert, List.lookup, List.enum, List.enumFrom, dot,
      ContentBasedModel.recommend_based_on_profile, hybrid_scores_list, cf_score_norm,
      cb_score_norm, dictGet, List.dedup, List.pwFilter])
    ((9 : Nat), (6 / 25 : ℝ)) (by simp)
